import Mathlib

/-!
Shallow embedding of the `atomicval` Go package (`src/value.go`) together with
the lock-based reference implementation `mutexValue` (benchmark comparison
file). The atomic slot `v unsafe.Pointer` of `Value[T]` is modelled as
`Option α`: `nil` becomes `none` (the uninitialized state) and a pointer to a
snapshot `&[1]T{x}` becomes `some x`. Go's zero value for the type parameter
`T` is an explicit parameter `z : α`, and Go's `==`/`!=` on comparable types
is `DecidableEq α`. Single-threaded executions are interleavings at the
granularity of the single `sync/atomic` call of each method, so a sequential
run of the four methods models them faithfully; `atomic.CompareAndSwapPointer`
applied to the pointer just read always succeeds in such a run, and its
possible hardware-level failure under contention is exposed separately through
an explicit `ptrUnchanged` flag.
-/

universe u

namespace AtomicVal

variable {α : Type u}

namespace Value

/-- `Value.Load` (src/value.go lines 35-42): atomically read the slot; a nil
pointer yields the zero value, otherwise the snapshot contents. -/
def Load (z : α) (s : Option α) : α :=
  match s with
  | none => z
  | some x => x

/-- `Value.Store` (src/value.go lines 45-47): unconditionally publish a new
snapshot holding `val`. -/
def Store (_s : Option α) (val : α) : Option α :=
  some val

/-- `Value.Swap` (src/value.go lines 51-58): atomically install a snapshot of
`new` and return the previous contents, the zero value if the slot was nil. -/
def Swap (z : α) (s : Option α) (new : α) : α × Option α :=
  match s with
  | none => (z, some new)
  | some x => (x, some new)

/-- `Value.CompareAndSwap` (src/value.go lines 63-83) in a single-threaded
run: read the slot; if nil, compare `old` with the zero value, otherwise
compare the snapshot contents with `old` by value; on inequality return
`false` leaving the slot as read, on equality the pointer CAS against the
just-read pointer succeeds and installs a snapshot of `new`. -/
def CompareAndSwap [DecidableEq α] (z : α) (s : Option α) (old new : α) :
    Bool × Option α :=
  match s with
  | none =>
    if old ≠ z then (false, none)
    else (true, some new)
  | some c =>
    if c ≠ old then (false, some c)
    else (true, some new)

/-- Outcome of `Value.CompareAndSwap` with the result of the hardware
`atomic.CompareAndSwapPointer` (src/value.go lines 72 and 82) made explicit:
`ptrUnchanged` tells whether the slot still holds the pointer read at the
start of the call when the conditional replacement is attempted. -/
def CompareAndSwapHW [DecidableEq α] (z : α) (s : Option α) (old : α)
    (ptrUnchanged : Bool) : Bool :=
  match s with
  | none =>
    if old ≠ z then false
    else ptrUnchanged
  | some c =>
    if c ≠ old then false
    else ptrUnchanged

end Value

/-- The `sync/atomic` pointer operations appearing in src/value.go. -/
inductive AtomicOp where
  | loadPtr
  | storePtr
  | swapPtr
  | casPtr
deriving DecidableEq

namespace Value

/-- Atomic operations executed by one `Load` call: a single
`atomic.LoadPointer` (src/value.go line 36). -/
def loadAtomics : List AtomicOp := [.loadPtr]

/-- Atomic operations executed by one `Store` call: a single
`atomic.StorePointer` (src/value.go line 46). -/
def storeAtomics : List AtomicOp := [.storePtr]

/-- Atomic operations executed by one `Swap` call: a single
`atomic.SwapPointer` (src/value.go line 52). -/
def swapAtomics : List AtomicOp := [.swapPtr]

/-- Atomic operations executed by one `CompareAndSwap` call, following the
control flow of src/value.go lines 63-83: one `atomic.LoadPointer`, then one
`atomic.CompareAndSwapPointer` only when the value comparison succeeds. -/
def casAtomics [DecidableEq α] (z : α) (s : Option α) (old : α) :
    List AtomicOp :=
  match s with
  | none =>
    if old ≠ z then [.loadPtr]
    else [.loadPtr, .casPtr]
  | some c =>
    if c ≠ old then [.loadPtr]
    else [.loadPtr, .casPtr]

end Value

/-- One call of the four-method interface, for sequential executions. -/
inductive Op (α : Type u) where
  | load
  | store (val : α)
  | swap (new : α)
  | cas (old new : α)

/-- The visible result of one call: a value (Load/Swap), a boolean
(CompareAndSwap), or nothing (Store). -/
inductive Out (α : Type u) where
  | val (x : α)
  | ok (b : Bool)
  | unit
deriving DecidableEq

/-- One step of `Value[T]`: run one method call on the slot. -/
def stepValue [DecidableEq α] (z : α) (op : Op α) (s : Option α) :
    Out α × Option α :=
  match op with
  | .load => (.val (Value.Load z s), s)
  | .store v => (.unit, Value.Store s v)
  | .swap n => ((Value.Swap z s n).1 |> Out.val, (Value.Swap z s n).2)
  | .cas o n =>
      ((Value.CompareAndSwap z s o n).1 |> Out.ok,
       (Value.CompareAndSwap z s o n).2)

/-- Run a sequence of method calls on `Value[T]`, collecting the results. -/
def runValue [DecidableEq α] (z : α) : List (Op α) → Option α →
    List (Out α) × Option α
  | [], s => ([], s)
  | op :: ops, s =>
    ((stepValue z op s).1 :: (runValue z ops (stepValue z op s).2).1,
     (runValue z ops (stepValue z op s).2).2)

end AtomicVal

namespace AtomicVal

variable {α : Type u}

namespace mutexValue

/-- `mutexValue.Load`: under the lock, return the inner field. -/
def Load (s : α) : α := s

/-- `mutexValue.Store`: under the lock, overwrite the inner field. -/
def Store (_s : α) (val : α) : α := val

/-- `mutexValue.Swap`: under the lock, return the inner field and overwrite
it with `new`. -/
def Swap (s : α) (new : α) : α × α := (s, new)

/-- `mutexValue.CompareAndSwap`: under the lock, if the inner field equals
`old` replace it with `new` and return true, else return false. -/
def CompareAndSwap [DecidableEq α] (s : α) (old new : α) : Bool × α :=
  if s = old then (true, new) else (false, s)

end mutexValue

/-- One step of `mutexValue[T]`: run one method call on the inner field. -/
def stepMutex [DecidableEq α] (op : Op α) (s : α) : Out α × α :=
  match op with
  | .load => (.val (mutexValue.Load s), s)
  | .store v => (.unit, mutexValue.Store s v)
  | .swap n => ((mutexValue.Swap s n).1 |> Out.val, (mutexValue.Swap s n).2)
  | .cas o n =>
      ((mutexValue.CompareAndSwap s o n).1 |> Out.ok,
       (mutexValue.CompareAndSwap s o n).2)

/-- Run a sequence of method calls on `mutexValue[T]`. -/
def runMutex [DecidableEq α] : List (Op α) → α → List (Out α) × α
  | [], s => ([], s)
  | op :: ops, s =>
    ((stepMutex op s).1 :: (runMutex ops (stepMutex op s).2).1,
     (runMutex ops (stepMutex op s).2).2)

end AtomicVal

namespace AtomicVal

variable {α : Type u}

/-- A write call in an execution made of stores and swaps, for the swap
conservation property. -/
inductive WOp (α : Type u) where
  | store (val : α)
  | swap (new : α)

/-- Final slot state after an execution of stores and swaps. -/
def wFinal (z : α) : List (WOp α) → Option α → Option α
  | [], s => s
  | .store v :: ops, s => wFinal z ops (Value.Store s v)
  | .swap v :: ops, s => wFinal z ops (Value.Swap z s v).2

/-- Multiset of all values installed by the store and swap calls of an
execution. -/
def wInstalled : List (WOp α) → Multiset α
  | [] => 0
  | .store v :: ops => v ::ₘ wInstalled ops
  | .swap v :: ops => v ::ₘ wInstalled ops

/-- Multiset of the values returned by the swap calls of an execution. -/
def wSwapReturns (z : α) : List (WOp α) → Option α → Multiset α
  | [], _ => 0
  | .store v :: ops, s => wSwapReturns z ops (Value.Store s v)
  | .swap v :: ops, s =>
      (Value.Swap z s v).1 ::ₘ wSwapReturns z ops (Value.Swap z s v).2

/-- Multiset of the values overwritten (and not returned to anyone) by the
store calls of an execution. -/
def wStoreDropped (z : α) : List (WOp α) → Option α → Multiset α
  | [], _ => 0
  | .store v :: ops, s => Value.Load z s ::ₘ wStoreDropped z ops (Value.Store s v)
  | .swap v :: ops, s => wStoreDropped z ops (Value.Swap z s v).2

/-- A Go interface value, for instantiations `Value[T]` with `T` an
interface type (allowed by `comparable` since Go 1.20, and used by the
repository's own tests with `io.Reader`/`io.Writer`): the nil interface, a
value of a comparable dynamic type, or a value of an uncomparable dynamic
type (e.g. a slice-backed `Write` implementation). Dynamic types are
identified by a tag. -/
inductive IfaceVal where
  | nilIface
  | cmp (tag : Nat) (val : Int)
  | uncmp (tag : Nat) (data : List Int)
deriving DecidableEq

/-- Go equality on interface values, which is partial: `none` models the
run-time panic the Go spec prescribes when two interface values have
identical dynamic types and that type is not comparable; values of different
dynamic types (or against the nil interface) compare unequal without
panicking. -/
def goIfaceEq : IfaceVal → IfaceVal → Option Bool
  | .nilIface, .nilIface => some true
  | .cmp t a, .cmp u b => some (decide (t = u ∧ a = b))
  | .uncmp t _, .uncmp u _ => if t = u then none else some false
  | _, _ => some false

/-- `Value.CompareAndSwap` (src/value.go lines 63-83) instantiated at an
interface type, with Go's partial interface equality: the nil branch compares
`old` against the nil interface (zero value), the non-nil branch evaluates
the dereferenced-contents comparison of line 76, and `none` models the call
panicking there. -/
def CompareAndSwapGo (s : Option IfaceVal) (old new : IfaceVal) :
    Option (Bool × Option IfaceVal) :=
  match s with
  | none =>
    match goIfaceEq old .nilIface with
    | none => none
    | some b => if b then some (true, some new) else some (false, none)
  | some c =>
    match goIfaceEq c old with
    | none => none
    | some b => if b then some (true, some new) else some (false, some c)

/-- Helper: `Swap` returns the value `Load` would have read and installs the
new snapshot. -/
theorem swap_spec (z : α) (s : Option α) (n : α) :
    Value.Swap z s n = (Value.Load z s, some n) := by
  cases s <;> rfl

/-- Helper: `CompareAndSwap` succeeds exactly when the loaded value equals
`old`, installing `new` on success and leaving the slot as read on failure. -/
theorem cas_spec [DecidableEq α] (z : α) (s : Option α) (old new : α) :
    Value.CompareAndSwap z s old new =
      (decide (Value.Load z s = old),
       if Value.Load z s = old then some new else s) := by
  cases s with
  | none =>
      by_cases h : old = z
      · subst h
        simp [Value.CompareAndSwap, Value.Load]
      · have h2 : ¬z = old := fun hz => h hz.symm
        simp [Value.CompareAndSwap, Value.Load, h, h2]
  | some c =>
      by_cases h : c = old <;>
        simp [Value.CompareAndSwap, Value.Load, h]

/-- C7 (amended): swap conservation. Over any execution of store and swap
calls, linearized at their single atomic replacements, the multiset of values
returned by the swap calls, plus the final loadable value, plus the values
silently overwritten by store calls, equals the initial loadable value (the
zero value on a fresh box) together with the multiset of all installed
values: every installed value is returned by at most one swap, none
duplicated, and a value disappears only by being overwritten by a store. -/
theorem C7_swap_conservation (z : α) (ops : List (WOp α)) (s : Option α) :
    wSwapReturns z ops s + {Value.Load z (wFinal z ops s)}
        + wStoreDropped z ops s
      = {Value.Load z s} + wInstalled ops := by
  induction ops generalizing s with
  | nil => simp [wSwapReturns, wFinal, wStoreDropped, wInstalled]
  | cons op ops ih =>
    cases op with
    | store v =>
        have h := ih (Value.Store s v)
        simp only [wSwapReturns, wFinal, wStoreDropped, wInstalled]
        calc wSwapReturns z ops (Value.Store s v)
              + {Value.Load z (wFinal z ops (Value.Store s v))}
              + (Value.Load z s ::ₘ wStoreDropped z ops (Value.Store s v))
            = Value.Load z s ::ₘ
                (wSwapReturns z ops (Value.Store s v)
                  + {Value.Load z (wFinal z ops (Value.Store s v))}
                  + wStoreDropped z ops (Value.Store s v)) := by
              simp [Multiset.add_cons]
          _ = Value.Load z s ::ₘ ({Value.Load z (Value.Store s v)} + wInstalled ops) := by
              rw [h]
          _ = {Value.Load z s} + (v ::ₘ wInstalled ops) := by
              simp [Value.Store, Value.Load, Multiset.add_cons,
                Multiset.singleton_add, Multiset.cons_swap]
    | swap v =>
        have h := ih (Value.Swap z s v).2
        simp only [wSwapReturns, wFinal, wStoreDropped, wInstalled]
        calc (Value.Swap z s v).1 ::ₘ wSwapReturns z ops (Value.Swap z s v).2
              + {Value.Load z (wFinal z ops (Value.Swap z s v).2)}
              + wStoreDropped z ops (Value.Swap z s v).2
            = (Value.Swap z s v).1 ::ₘ
                (wSwapReturns z ops (Value.Swap z s v).2
                  + {Value.Load z (wFinal z ops (Value.Swap z s v).2)}
                  + wStoreDropped z ops (Value.Swap z s v).2) := by
              simp [Multiset.cons_add]
          _ = (Value.Swap z s v).1 ::ₘ
                ({Value.Load z (Value.Swap z s v).2} + wInstalled ops) := by
              rw [h]
          _ = {Value.Load z s} + (v ::ₘ wInstalled ops) := by
              rw [swap_spec]
              simp [Value.Load, Multiset.add_cons, Multiset.singleton_add,
                Multiset.cons_swap]

end AtomicVal

namespace AtomicVal

variable {α : Type u}

/-- Helper: `Load` on a published snapshot reads its contents. -/
theorem load_some (z x : α) : Value.Load z (some x) = x := rfl

/-- Helper: `Load` on the nil slot reads the zero value. -/
theorem load_none (z : α) : Value.Load z (none : Option α) = z := rfl

/-- Helper: one method call on `Value` and on `mutexValue` agree through the
loadable-value abstraction `Value.Load`. -/
theorem step_agree [DecidableEq α] (z : α) (op : Op α) (s : Option α) :
    stepMutex op (Value.Load z s)
      = ((stepValue z op s).1, Value.Load z (stepValue z op s).2) := by
  cases op with
  | load => rfl
  | store v => rfl
  | swap n =>
      simp [stepValue, stepMutex, swap_spec, mutexValue.Swap, load_some]
  | cas o n =>
      by_cases h : Value.Load z s = o <;>
        simp [stepValue, stepMutex, cas_spec, mutexValue.CompareAndSwap, h,
          load_some]

/-- Helper: whole runs of `Value` and `mutexValue` agree through the
loadable-value abstraction. -/
theorem run_agree [DecidableEq α] (z : α) (ops : List (Op α)) (s : Option α) :
    runMutex ops (Value.Load z s)
      = ((runValue z ops s).1, Value.Load z (runValue z ops s).2) := by
  induction ops generalizing s with
  | nil => rfl
  | cons op ops ih =>
      simp [runMutex, runValue, step_agree z op s, ih]

/-- Helper: every call in a run produces exactly one result. -/
theorem run_length [DecidableEq α] (z : α) (ops : List (Op α)) (s : Option α) :
    (runValue z ops s).1.length = ops.length := by
  induction ops generalizing s with
  | nil => rfl
  | cons op ops ih => simp [runValue, ih]

/-- C1: the outcome of `CompareAndSwap` is decided purely by value equality of
the current contents (the zero value when uninitialized) with `expected`:
the returned boolean is exactly the decision of `Load = expected`, so it
depends only on the stored value, never on which allocation holds it, and two
separately allocated snapshots with equal contents compare as equal. -/
theorem C1_cas_value_equality [DecidableEq α] (z : α) (s : Option α)
    (old new : α) :
    (Value.CompareAndSwap z s old new).1 = decide (Value.Load z s = old) := by
  rw [cas_spec]

/-- C2: `CompareAndSwap(old, new)` returns true iff the current value (zero
value when uninitialized) equals `old`; on false the slot is unchanged, on
true the slot afterwards holds `new`. -/
theorem C2_cas_contract [DecidableEq α] (z : α) (s : Option α) (old new : α) :
    ((Value.CompareAndSwap z s old new).1 = true ↔ Value.Load z s = old)
      ∧ (Value.CompareAndSwap z s old new).2
          = (if Value.Load z s = old then some new else s) := by
  rw [cas_spec]
  by_cases h : Value.Load z s = old <;> simp [h]

/-- C3: on a freshly constructed `Value` (nil slot), `Load` returns the zero
value and `CompareAndSwap(zero, x)` succeeds, leaving the box holding `x`. -/
theorem C3_fresh_zero [DecidableEq α] (z x : α) :
    Value.Load z (none : Option α) = z
      ∧ Value.CompareAndSwap z (none : Option α) z x = (true, some x) := by
  exact ⟨rfl, by simp [Value.CompareAndSwap]⟩

/-- C4: `Swap(new)` returns exactly the value the box held immediately before
the call (the zero value when uninitialized) and leaves the box holding
`new`, for every prior state and input. -/
theorem C4_swap_returns_previous (z : α) (s : Option α) (n : α) :
    Value.Swap z s n = (Value.Load z s, some n) :=
  swap_spec z s n

/-- C5: read-after-write round trip: from any state (hence after any
single-threaded sequence of operations), immediately after `Store(v)` a
`Load` returns `v`; stated both directly and as a run of the interpreter. -/
theorem C5_read_after_write [DecidableEq α] (z v : α) (ops : List (Op α))
    (s : Option α) :
    Value.Load z (Value.Store s v) = v
      ∧ (runValue z [Op.store v, Op.load] (runValue z ops s).2).1
          = [Out.unit, Out.val v] := by
  refine ⟨rfl, ?_⟩
  simp [runValue, stepValue, Value.Store, Value.Load]

/-- C6: the uninitialized state is observationally indistinguishable from an
explicitly stored zero value: every sequence of calls produces the same
results from both states, and the final states hold equal loadable values. -/
theorem C6_empty_equals_zero [DecidableEq α] (z : α) (ops : List (Op α)) :
    (runValue z ops (none : Option α)).1 = (runValue z ops (some z)).1
      ∧ Value.Load z (runValue z ops (none : Option α)).2
          = Value.Load z (runValue z ops (some z)).2 := by
  have h1 := run_agree z ops (none : Option α)
  have h2 := run_agree z ops (some z)
  have h : ((runValue z ops (none : Option α)).1,
        Value.Load z (runValue z ops (none : Option α)).2)
      = ((runValue z ops (some z)).1,
        Value.Load z (runValue z ops (some z)).2) := by
    rw [← h1, ← h2]
    rfl
  rw [Prod.mk.injEq] at h
  exact h

/-- C8: the no-panic claim fails on the code. On a fresh `Value` of an
interface type, after storing a value of an uncomparable dynamic type (a
slice-backed writer), `CompareAndSwap` with an `expected` of that same
dynamic type reaches the contents comparison of src/value.go line 76 and
panics (modelled as `none`) instead of completing with a boolean, even
though the immediately preceding store of the same value completed normally. -/
theorem C8_panic_on_uncomparable :
    CompareAndSwapGo (Value.Store (none : Option IfaceVal) (IfaceVal.uncmp 0 [1]))
        (IfaceVal.uncmp 0 [1]) (IfaceVal.cmp 0 0) = none
      ∧ Value.Store (none : Option IfaceVal) (IfaceVal.uncmp 0 [1])
          = some (IfaceVal.uncmp 0 [1]) := by
  exact ⟨rfl, rfl⟩

/-- C9: bounded-step operations: `Load`, `Store` and `Swap` each perform one
atomic machine operation, `CompareAndSwap` performs at most an atomic read
plus one conditional replacement and never more than one conditional
replacement (no internal retry loop), and a single failed conditional
replacement makes `CompareAndSwap` return false. -/
theorem C9_bounded_atomics [DecidableEq α] (z old : α) (s : Option α) :
    Value.loadAtomics.length = 1
      ∧ Value.storeAtomics.length = 1
      ∧ Value.swapAtomics.length = 1
      ∧ (Value.casAtomics z s old).length ≤ 2
      ∧ (Value.casAtomics z s old).count AtomicOp.casPtr ≤ 1
      ∧ Value.CompareAndSwapHW z s old false = false := by
  refine ⟨rfl, rfl, rfl, ?_, ?_, ?_⟩
  · cases s with
    | none => by_cases h : old = z <;> simp [Value.casAtomics, h]
    | some c => by_cases h : c = old <;> simp [Value.casAtomics, h]
  · cases s with
    | none => by_cases h : old = z <;> simp [Value.casAtomics, h]
    | some c => by_cases h : c = old <;> simp [Value.casAtomics, h]
  · cases s with
    | none => by_cases h : old = z <;> simp [Value.CompareAndSwapHW, h]
    | some c => by_cases h : c = old <;> simp [Value.CompareAndSwapHW, h]

/-- C10: sequential equivalence to the lock-based reference: from fresh
instances (nil slot and zero inner field), every sequence of calls makes
`Value` and `mutexValue` return the same sequence of results. -/
theorem C10_sequential_equivalence [DecidableEq α] (z : α)
    (ops : List (Op α)) :
    (runValue z ops (none : Option α)).1 = (runMutex ops z).1 := by
  have h := run_agree z ops (none : Option α)
  exact (congrArg Prod.fst h).symm

end AtomicVal

namespace AtomicVal

/-- C7 counterexample: on a fresh box of naturals (zero value 0), the
execution swap 1 then store 2 returns the multiset \x7b0\x7d from swaps and
loads 2 at the end, while the installed values are \x7b1, 2\x7d: the multiset
of swap returns plus the final load does not equal the multiset of installed
values, since the swap returns the never-installed initial zero and the store
drops the installed value 1. -/
theorem C7_counterexample :
    ¬ (wSwapReturns 0 [WOp.swap 1, WOp.store 2] (none : Option ℕ)
        + {Value.Load 0 (wFinal 0 [WOp.swap 1, WOp.store 2] (none : Option ℕ))}
      = wInstalled [WOp.swap 1, WOp.store 2]) := by
  decide

end AtomicVal
